import Mathlib

/-!
Verification development for the stress4844 load-generation client.

The definitions below are a shallow embedding of the program's two source
files, `src/bundle_builder.rs` and `src/main.rs`:

* machine integers (`usize`, `U256`) are `Nat` together with explicit
  checked operations (`usize_sub`, `usize_mul`, `usize_div`, `u256_add`,
  `u256_mul`): Rust's arithmetic on these types panics on overflow /
  underflow / division by zero (debug builds panic on over- and underflow;
  the `uint` crate's `U256` always panics), which we model as
  `Except.error RtError.panic`;
* the OS random generator `rand::thread_rng()` is modelled as an explicit
  stream of bytes plus a position (`RngState`), threaded through the
  computation exactly where the source draws random bytes;
* the external chain client (`ethers` `Middleware`) is a record of
  response functions (`Middleware`): current gas price, gas estimation,
  transaction signing, raw-transaction broadcast and receipt await;
  fallible RPC calls return `Except RtError _`;
* `async`/`await` control flow collapses to sequential `Except` binding;
  `futures::future::try_join_all`, which resolves to the first error if
  any future fails and to the list of results otherwise, is the monadic
  sequence `try_join_all`;
* the block-notification stream consumed by `submit_bundles`
  (`watch_blocks`) is a finite list of `BlockEvent`s, each carrying the
  values the loop body observes on that iteration (block number, the
  fetched latest block's gas limit, the relay's two-stage submission
  outcome, and the nonce re-fetched after the attempt).
-/

namespace Stress4844

/-- 1 kilobyte = 1024 bytes (`KB` in src/bundle_builder.rs). -/
def KB : Nat := 1024

/-- Fixed byte reserve per serialized transaction for the non-payload fields
(`TRIM_BYTES` in src/bundle_builder.rs; the spec's `OVERHEAD`). -/
def TRIM_BYTES : Nat := 300

/-- Largest value of Rust's `usize` on the 64-bit targets the program builds for. -/
def USIZE_MAX : Nat := 2 ^ 64 - 1

/-- Largest value of the ethers `U256` integer type. -/
def U256_MAX : Nat := 2 ^ 256 - 1

/-- Runtime-visible failures of the embedded code.  `panic` is a Rust panic
(checked integer overflow/underflow, division by zero).  `provider` is an
error surfaced by the external chain client and propagated with `?`.
`config` is the spec's `ConfigError` class (§7 of the spec); it appears here
so that statements can compare against it — the code under src/ never
constructs a configuration error. -/
inductive RtError where
  | panic : RtError
  | provider : RtError
  | config : RtError
deriving DecidableEq

/-- Checked `usize` subtraction: Rust `a - b` panics when `b > a`. -/
def usize_sub (a b : Nat) : Except RtError Nat :=
  if b ≤ a then .ok (a - b) else .error .panic

/-- Checked `usize` multiplication: Rust `a * b` panics when the product
does not fit in 64 bits. -/
def usize_mul (a b : Nat) : Except RtError Nat :=
  if a * b ≤ USIZE_MAX then .ok (a * b) else .error .panic

/-- Checked `usize` division: Rust `a / b` panics when `b = 0`. -/
def usize_div (a b : Nat) : Except RtError Nat :=
  if b = 0 then .error .panic else .ok (a / b)

/-- Checked `U256` addition (the `uint` crate panics on overflow). -/
def u256_add (a b : Nat) : Except RtError Nat :=
  if a + b ≤ U256_MAX then .ok (a + b) else .error .panic

/-- Checked `U256` multiplication (the `uint` crate panics on overflow). -/
def u256_mul (a b : Nat) : Except RtError Nat :=
  if a * b ≤ U256_MAX then .ok (a * b) else .error .panic

/-- The state of `rand::thread_rng()`: an infinite stream of bytes and the
position of the next byte to be drawn. -/
structure RngState where
  stream : Nat → UInt8
  pos : Nat

/-- `generate_random_data` (src/bundle_builder.rs): draw exactly `size`
bytes from the generator.  Returns the blob and the advanced generator. -/
def generate_random_data (r : RngState) (size : Nat) : List UInt8 × RngState :=
  ((List.range size).map fun i => r.stream (r.pos + i), ⟨r.stream, r.pos + size⟩)

/-- The fields of an ethers `TransactionRequest` the program sets.
Addresses and the chain id are abstracted as `Nat`. -/
structure TransactionRequest where
  chain_id : Nat
  value : Nat
  from_addr : Nat
  to_addr : Nat
  data : List UInt8
  gas_price : Nat
  nonce : Option Nat
  gas : Option Nat

/-- `construct_tx` (src/bundle_builder.rs): build the unsigned transaction —
zero value, the given receiver, a freshly drawn `data_size`-byte blob as
calldata, and the given gas price.  Nonce and gas limit are not yet set. -/
def construct_tx (chain_id address receiver : Nat) (data_size : Nat) (gas_price : Nat)
    (r : RngState) : TransactionRequest × RngState :=
  let blob := generate_random_data r data_size
  (⟨chain_id, 0, address, receiver, blob.1, gas_price, none, none⟩, blob.2)

/-- A signed, serialized transaction (`tx.rlp_signed(&signature)`): the
final transaction fields together with the signature the signer produced.
The RLP byte encoding itself is kept abstract. -/
structure SignedTx where
  tx : TransactionRequest
  sig : Nat

/-- The external chain client (the ethers `Middleware` the program consumes,
plus the mempool broadcast interface of `submit_txns`).  `gas_price` is the
value `get_gas_price` returns; `estimate_gas` and `sign_transaction` may
fail with a provider error; `send_raw_transaction` resolves to a pending
handle, and `await_receipt` resolves that handle to an optional receipt. -/
structure Middleware where
  gas_price : Nat
  estimate_gas : TransactionRequest → Except RtError Nat
  sign_transaction : TransactionRequest → Except RtError Nat
  send_raw_transaction : SignedTx → Except RtError Nat
  await_receipt : Nat → Except RtError (Option Nat × Nat × Nat)

/-- `get_signed_tx` (src/bundle_builder.rs): construct the transaction,
estimate its gas, apply the nonce and the estimated gas limit, sign it and
serialize.  Either external call failing propagates with `?`. -/
def get_signed_tx (m : Middleware) (chain_id address receiver : Nat) (chunk : Nat)
    (gas_price : Nat) (nonce : Nat) (r : RngState) :
    Except RtError (SignedTx × RngState) := do
  let txr := construct_tx chain_id address receiver chunk gas_price r
  let gas_per_tx ← m.estimate_gas txr.1
  let tx2 : TransactionRequest := { txr.1 with nonce := some nonce, gas := some gas_per_tx }
  let signature ← m.sign_transaction tx2
  .ok (⟨tx2, signature⟩, txr.2)

/-- The ethers-flashbots `BundleRequest`: the ordered transactions plus the
target-block metadata set inside the landing loop. -/
structure BundleRequest where
  txs : List SignedTx
  block : Option Nat
  simulation_block : Option Nat
  simulation_timestamp : Option Nat

/-- `BundleRequest::new()`: an empty bundle with no target metadata. -/
def BundleRequest.new : BundleRequest := ⟨[], none, none, none⟩

/-- `BundleRequest::push_transaction`: append one signed transaction. -/
def BundleRequest.push_transaction (b : BundleRequest) (t : SignedTx) : BundleRequest :=
  { b with txs := b.txs ++ [t] }

/-- `BundleRequest::set_block`: set the target block. -/
def BundleRequest.set_block (b : BundleRequest) (n : Nat) : BundleRequest :=
  { b with block := some n }

/-- `BundleRequest::set_simulation_block`: set the simulation block. -/
def BundleRequest.set_simulation_block (b : BundleRequest) (n : Nat) : BundleRequest :=
  { b with simulation_block := some n }

/-- `BundleRequest::set_simulation_timestamp`: set the simulation timestamp. -/
def BundleRequest.set_simulation_timestamp (b : BundleRequest) (n : Nat) : BundleRequest :=
  { b with simulation_timestamp := some n }

/-- The `for _ in 0..txs_per_block` loop of `construct_bundle`
(src/bundle_builder.rs): sign a `chunk`-sized transaction at the current
nonce, push it, increment the nonce (`U256` add) and the `current_data_used`
counter, `count` times.  Returns the grown bundle, the final nonce, the
final `current_data_used` and the advanced generator. -/
def push_loop (m : Middleware) (chain_id address receiver : Nat) (chunk gas_price : Nat) :
    Nat → Nat → BundleRequest → Nat → RngState →
    Except RtError (BundleRequest × Nat × Nat × RngState)
  | 0, nonce, bundle, used, r => .ok (bundle, nonce, used, r)
  | k + 1, nonce, bundle, used, r => do
    let srx ← get_signed_tx m chain_id address receiver chunk gas_price nonce r
    let bundle2 := bundle.push_transaction srx.1
    let nonce2 ← u256_add nonce 1
    push_loop m chain_id address receiver chunk gas_price k nonce2 bundle2 (used + chunk) srx.2

/-- `construct_bundle` (src/bundle_builder.rs): the packing planner and
bundle assembler.  `chunk = chunk_size * KB - TRIM_BYTES` bytes per full
transaction; `total_data_size = fill_pct * 2MB / 100`; `txs_per_block`
full-chunk transactions followed by one remainder transaction of
`total_data_size - current_data_used - TRIM_BYTES` bytes, where
`current_data_used` starts at `TRIM_BYTES` and grows by `chunk` per full
transaction.  All `usize`/`U256` arithmetic is checked as in Rust.
(`fill_pct` is a `u8` in the source, so `fill_pct * 2 * 1024 * KB` cannot
overflow a `usize` and is left unchecked.) -/
def construct_bundle (m : Middleware) (chain_id address receiver : Nat)
    (gas_limit : Nat) (fill_pct : Nat) (nonce : Nat) (chunk_size : Nat) (tip_wei : Nat)
    (r : RngState) : Except RtError (BundleRequest × RngState) := do
  let ck ← usize_mul chunk_size KB
  let chunk ← usize_sub ck TRIM_BYTES
  let gl ← u256_mul gas_limit fill_pct
  let _gas_used_per_block := gl / 100
  let total_data_size := fill_pct * 2 * 1024 * KB / 100
  let current_data_used := TRIM_BYTES
  let txs_per_block ← usize_div total_data_size chunk
  let default_gas_price := m.gas_price
  let gas_price ← u256_add tip_wei default_gas_price
  let bundle := BundleRequest.new
  let lp ← push_loop m chain_id address receiver chunk gas_price
      txs_per_block nonce bundle current_data_used r
  let rem1 ← usize_sub total_data_size lp.2.2.1
  let remaining_data ← usize_sub rem1 TRIM_BYTES
  let last ← get_signed_tx m chain_id address receiver remaining_data gas_price lp.2.1 lp.2.2.2
  .ok (lp.1.push_transaction last.1, last.2)

/-- Modelled from the spec: `calldata_kb_to_bytes` is called by
`submit_txns` (src/main.rs line 257) but its definition is not among the
provided sources.  Per the spec (§4.2, §4.6) each per-transaction payload is
bounded by `chunk_size_kb * 1024 - fixed_overhead` bytes, so the conversion
is modelled as that quantity.  No claim settled below depends on the value
this function returns. -/
def calldata_kb_to_bytes (kb : Nat) : Nat := kb * KB - TRIM_BYTES

/-- The `for i in 0..mempool_txs - 1` loop of `submit_txns` (src/main.rs):
build and sign one transaction per index `i` at nonce `nonce + i`
(a `U256` addition), collecting them in order.  `i` is the next index,
`k` the number of iterations still to run. -/
def build_txns_loop (m : Middleware) (chain_id address receiver : Nat)
    (calldata_bytes gas_price nonce : Nat) :
    Nat → Nat → List SignedTx → RngState → Except RtError (List SignedTx × RngState)
  | _, 0, acc, r => .ok (acc, r)
  | i, k + 1, acc, r => do
    let new_nonce ← u256_add nonce i
    let srx ← get_signed_tx m chain_id address receiver calldata_bytes gas_price new_nonce r
    build_txns_loop m chain_id address receiver calldata_bytes gas_price nonce
      (i + 1) k (acc ++ [srx.1]) srx.2

/-- `futures::future::try_join_all`: all futures are awaited; the result is
the list of outcomes in order if every future succeeds, and an error as soon
as any future fails (the remaining ones are cancelled). -/
def try_join_all {α β : Type} (f : α → Except RtError β) : List α → Except RtError (List β)
  | [] => .ok []
  | x :: xs => do
    let y ← f x
    let ys ← try_join_all f xs
    .ok (y :: ys)

/-- The observable outcome of one `submit_txns` run: the transactions built
and broadcast, the receipts logged by `log_txn` (each receipt is
`(block_number, effective_gas_price, status)` here), and the final value of
the `landed` counter. -/
structure MempoolRun where
  built : List SignedTx
  logged : List (Nat × Nat × Nat)
  landed : Nat

/-- `submit_txns` (src/main.rs): the mempool fan-out path.  Fetch the gas
price once, build `mempool_txs - 1` signed transactions at nonces
`nonce + 0, nonce + 1, …` (the loop bound is `0..mempool_txs - 1`),
broadcast them all and `try_join_all` the sends, then `try_join_all` the
receipt futures; finally iterate the receipts, counting and logging exactly
those that are `Some`. -/
def submit_txns (m : Middleware) (chain_id address receiver : Nat)
    (nonce : Nat) (chunk_size : Nat) (mempool_txs : Nat) (r : RngState) :
    Except RtError MempoolRun := do
  let calldata_bytes := calldata_kb_to_bytes chunk_size
  let default_gas_price := m.gas_price
  let bound ← usize_sub mempool_txs 1
  let bl ← build_txns_loop m chain_id address receiver calldata_bytes default_gas_price nonce
      0 bound [] r
  let transactions := bl.1
  let pending_txs ← try_join_all m.send_raw_transaction transactions
  let receipts ← try_join_all m.await_receipt pending_txs
  let logged := receipts.filterMap fun rc =>
    match rc.1 with
    | some bn => some (bn, rc.2.1, rc.2.2)
    | none => none
  .ok ⟨transactions, logged, logged.length⟩

/-- One record `log_attempt` appends (src/main.rs `get_attempt_json`,
without the wall-clock timestamp): tip, fill percentage, success flag,
chunk size and the observed block number. -/
structure AttemptRecord where
  tip_wei : Nat
  fill_pct : Nat
  success : Bool
  chunk_size : Nat
  block_no : Nat
deriving DecidableEq

/-- What the landing loop observes on one iteration of
`while block_sub.next().await.is_some() && landed <= blocks_to_land`:
the fetched block number, the fetched latest block's gas limit, whether
`send_bundle` itself succeeded (its `?`), the resolution of the pending
bundle (`some hash` = included, `none` = not included), and the nonce
`get_transaction_count` returns after the attempt. -/
structure BlockEvent where
  block_number : Nat
  gas_limit : Nat
  send_ok : Bool
  included : Option Nat
  refreshed_nonce : Nat

/-- The `while` loop of `submit_bundles` (src/main.rs): consume one block
notification; if `landed ≤ blocks_to_land`, set the bundle's target block to
`block_number + 1` and its simulation block, submit it (a failing
`send_bundle` aborts through `?`), record a success or failure attempt and
bump `landed` on inclusion, re-fetch the nonce, rebuild the bundle for the
next block, and loop; otherwise exit.  Returns the attempt log. -/
def submit_bundles_loop (m : Middleware) (chain_id address receiver : Nat)
    (blocks_to_land chunk_size fill_pct tip_wei : Nat) :
    List BlockEvent → Nat → BundleRequest → Nat → RngState → List AttemptRecord →
    Except RtError (List AttemptRecord)
  | [], _, _, _, _, log => .ok log
  | ev :: rest, landed, bundle, _, r, log =>
    if landed ≤ blocks_to_land then do
      let block_number := ev.block_number
      let target_block := block_number + 1
      let _bundle2 : BundleRequest :=
        ((bundle.set_block target_block).set_simulation_block block_number).set_simulation_timestamp 0
      let _ ← (if ev.send_ok then Except.ok 0 else Except.error RtError.provider)
      let step : Nat × List AttemptRecord :=
        match ev.included with
        | some _ => (landed + 1, log ++ [⟨tip_wei, fill_pct, true, chunk_size, block_number⟩])
        | none => (landed, log ++ [⟨tip_wei, fill_pct, false, chunk_size, block_number⟩])
      let nonce2 := ev.refreshed_nonce
      let cb ← construct_bundle m chain_id address receiver ev.gas_limit fill_pct nonce2
          chunk_size tip_wei r
      submit_bundles_loop m chain_id address receiver blocks_to_land chunk_size fill_pct tip_wei
        rest step.1 cb.1 nonce2 cb.2 step.2
    else .ok log

/-- `submit_bundles` (src/main.rs): build the initial bundle from the
starting nonce and the latest block's gas limit, then run the landing loop
over the block-notification stream with the landed-block counter at 0. -/
def submit_bundles (m : Middleware) (chain_id address receiver : Nat)
    (nonce : Nat) (block_gas_limit : Nat)
    (blocks_to_land chunk_size fill_pct tip_wei : Nat)
    (events : List BlockEvent) (r : RngState) : Except RtError (List AttemptRecord) := do
  let cb ← construct_bundle m chain_id address receiver block_gas_limit fill_pct nonce
      chunk_size tip_wei r
  submit_bundles_loop m chain_id address receiver blocks_to_land chunk_size fill_pct tip_wei
    events 0 cb.1 nonce cb.2 []

/-- The per-transaction payload budget `chunk_size * KB - TRIM_BYTES`
(meaningful when `TRIM_BYTES ≤ chunk_size * KB`). -/
def chunk_bytes (chunk_size : Nat) : Nat := chunk_size * KB - TRIM_BYTES

/-- The total calldata target `fill_pct * 2MB / 100`. -/
def total_data_size (fill_pct : Nat) : Nat := fill_pct * 2 * 1024 * KB / 100

/-- The number of full-chunk transactions `total_data_size / chunk`. -/
def full_chunks (fill_pct chunk_size : Nat) : Nat :=
  total_data_size fill_pct / chunk_bytes chunk_size

/-- The remainder size the code computes when its two subtractions succeed:
`total_data_size - (TRIM_BYTES + full_chunks * chunk) - TRIM_BYTES` —
`TRIM_BYTES` is subtracted twice, once as the initial value of
`current_data_used` and once at the remainder computation. -/
def code_remainder (fill_pct chunk_size : Nat) : Nat :=
  total_data_size fill_pct -
    (TRIM_BYTES + full_chunks fill_pct chunk_size * chunk_bytes chunk_size) - TRIM_BYTES

/-- The remainder the spec prescribes, following its words (§4.2 step 5):
`max(0, total_bytes − full_chunks*chunk_bytes − OVERHEAD)`, computed in ℤ
so the clamp at zero is meaningful.  Stated for comparison with
`code_remainder`. -/
def spec_remainder (fill_pct chunk_size : Nat) : Int :=
  max 0 ((total_data_size fill_pct : Int) -
    (full_chunks fill_pct chunk_size : Int) * (chunk_bytes chunk_size : Int) -
    (TRIM_BYTES : Int))

/-- The observable triple of one signed transaction: payload size, nonce,
gas price. -/
def tx_obs (t : SignedTx) : Nat × Option Nat × Nat :=
  (t.tx.data.length, t.tx.nonce, t.tx.gas_price)

/-- The packing plan a bundle realizes: the ordered (payload size, nonce)
pairs of its transactions. -/
def plan_of (b : BundleRequest) : List (Nat × Option Nat) :=
  b.txs.map fun t => (t.tx.data.length, t.tx.nonce)

/-- The observables of `count` full transactions of `chunk` bytes each, at
consecutive nonces starting at `nonce`, all at gas price `gp`. -/
def chunk_entries (chunk gp nonce count : Nat) : List (Nat × Option Nat × Nat) :=
  (List.range count).map fun i => (chunk, some (nonce + i), gp)

/-- The canonical observable content of a bundle produced by
`construct_bundle`: `count` full transactions of `chunk` bytes at
consecutive nonces starting at `nonce`, then one remainder transaction of
`rem` bytes, all at gas price `gp`. -/
def canonical_obs (chunk gp nonce count rem : Nat) : List (Nat × Option Nat × Nat) :=
  chunk_entries chunk gp nonce count ++ [(rem, some (nonce + count), gp)]

/-- A concrete, always-succeeding chain client for witnesses: gas price 3,
every estimation 21000, every signature 1, every broadcast accepted with
handle 0, every receipt pending (`none`). -/
def mW : Middleware :=
  ⟨3, fun _ => .ok 21000, fun _ => .ok 1, fun _ => .ok 0, fun _ => .ok (none, 0, 0)⟩

/-- A chain client whose broadcast fails exactly for the transaction with
nonce 8 and succeeds otherwise. -/
def mFail8 : Middleware :=
  ⟨3, fun _ => .ok 21000, fun _ => .ok 1,
    fun t => if t.tx.nonce = some 8 then .error .provider else .ok 0,
    fun _ => .ok (none, 0, 0)⟩

/-- A chain client whose broadcasts all succeed (the pending handle is the
transaction's nonce) and whose receipt for handle 8 resolves to `none`
(dropped from the pool) while every other receipt resolves to a receipt in
block 100 with status 1. -/
def mDrop8 : Middleware :=
  ⟨3, fun _ => .ok 21000, fun _ => .ok 1,
    fun t => .ok ((t.tx.nonce).getD 0),
    fun h => .ok ((if h = 8 then none else some 100), 3, 1)⟩

/-- The all-zeros random stream at position 0. -/
def rngZero : RngState := ⟨fun _ => 0, 0⟩

/-- The all-ones random stream at position 0. -/
def rngOne : RngState := ⟨fun _ => 1, 0⟩

/-- The landing-loop scenario of the spec (§8): three observed blocks;
submission is acknowledged each time; the bundle is included on block 2
only; the re-fetched nonce stays 0. -/
def scenarioEvents : List BlockEvent :=
  [⟨1, 30000000, true, none, 0⟩,
   ⟨2, 30000000, true, some 42, 0⟩,
   ⟨3, 30000000, true, none, 0⟩]

/-! ### Helper lemmas -/

theorem ok_bind {α β : Type} (a : α) (f : α → Except RtError β) :
    (Except.ok a >>= f : Except RtError β) = f a := rfl

theorem error_bind {α β : Type} (e : RtError) (f : α → Except RtError β) :
    (Except.error e >>= f : Except RtError β) = .error e := rfl

theorem except_bind_ok {α β : Type} {x : Except RtError α} {f : α → Except RtError β} {v : β}
    (h : x >>= f = .ok v) : ∃ a, x = .ok a ∧ f a = .ok v := by
  cases x with
  | error e => rw [error_bind] at h; cases h
  | ok a => exact ⟨a, rfl, h⟩

theorem usize_sub_ok {a b v : Nat} (h : usize_sub a b = .ok v) : b ≤ a ∧ v = a - b := by
  unfold usize_sub at h
  split at h
  · exact ⟨by assumption, by cases h; rfl⟩
  · cases h

theorem usize_mul_ok {a b v : Nat} (h : usize_mul a b = .ok v) :
    a * b ≤ USIZE_MAX ∧ v = a * b := by
  unfold usize_mul at h
  split at h
  · exact ⟨by assumption, by cases h; rfl⟩
  · cases h

theorem usize_div_ok {a b v : Nat} (h : usize_div a b = .ok v) : b ≠ 0 ∧ v = a / b := by
  unfold usize_div at h
  split at h
  · cases h
  · exact ⟨by assumption, by cases h; rfl⟩

theorem u256_add_ok {a b v : Nat} (h : u256_add a b = .ok v) :
    a + b ≤ U256_MAX ∧ v = a + b := by
  unfold u256_add at h
  split at h
  · exact ⟨by assumption, by cases h; rfl⟩
  · cases h

theorem u256_mul_ok {a b v : Nat} (h : u256_mul a b = .ok v) :
    a * b ≤ U256_MAX ∧ v = a * b := by
  unfold u256_mul at h
  split at h
  · exact ⟨by assumption, by cases h; rfl⟩
  · cases h

theorem usize_sub_eq_ok {a b : Nat} (h : b ≤ a) : usize_sub a b = .ok (a - b) := by
  unfold usize_sub
  exact if_pos h

theorem usize_mul_eq_ok {a b : Nat} (h : a * b ≤ USIZE_MAX) : usize_mul a b = .ok (a * b) := by
  unfold usize_mul
  exact if_pos h

theorem usize_div_eq_ok {a b : Nat} (h : b ≠ 0) : usize_div a b = .ok (a / b) := by
  unfold usize_div
  exact if_neg h

theorem u256_add_eq_ok {a b : Nat} (h : a + b ≤ U256_MAX) : u256_add a b = .ok (a + b) := by
  unfold u256_add
  exact if_pos h

theorem u256_mul_eq_ok {a b : Nat} (h : a * b ≤ U256_MAX) : u256_mul a b = .ok (a * b) := by
  unfold u256_mul
  exact if_pos h

/-- Inversion for `get_signed_tx`: a successfully signed transaction carries a
payload of exactly the requested size, the requested nonce and the given gas
price, and the generator advances by the payload size. -/
theorem get_signed_tx_ok {m : Middleware} {cid addr rcv chunk gp nonce : Nat} {r : RngState}
    {out : SignedTx × RngState}
    (h : get_signed_tx m cid addr rcv chunk gp nonce r = .ok out) :
    tx_obs out.1 = (chunk, some nonce, gp) ∧ out.2 = ⟨r.stream, r.pos + chunk⟩ := by
  unfold get_signed_tx at h
  obtain ⟨g, hg, h⟩ := except_bind_ok h
  obtain ⟨s, hs, h⟩ := except_bind_ok h
  cases h
  constructor
  · simp [tx_obs, construct_tx, generate_random_data]
  · simp [construct_tx, generate_random_data]

/-- Totality of `get_signed_tx` over a client whose estimation and signing
always succeed. -/
theorem get_signed_tx_total {m : Middleware}
    (hest : ∀ tx, ∃ g, m.estimate_gas tx = .ok g)
    (hsig : ∀ tx, ∃ s, m.sign_transaction tx = .ok s)
    (cid addr rcv chunk gp nonce : Nat) (r : RngState) :
    ∃ out, get_signed_tx m cid addr rcv chunk gp nonce r = .ok out := by
  obtain ⟨g, hg⟩ := hest (construct_tx cid addr rcv chunk gp r).1
  obtain ⟨s, hs⟩ := hsig { (construct_tx cid addr rcv chunk gp r).1 with
    nonce := some nonce, gas := some g }
  refine ⟨(⟨{ (construct_tx cid addr rcv chunk gp r).1 with
    nonce := some nonce, gas := some g }, s⟩, (construct_tx cid addr rcv chunk gp r).2), ?_⟩
  unfold get_signed_tx
  simp only [hg, ok_bind, hs]

theorem chunk_entries_zero (chunk gp nonce : Nat) : chunk_entries chunk gp nonce 0 = [] := rfl

theorem chunk_entries_succ (chunk gp nonce k : Nat) :
    chunk_entries chunk gp nonce (k + 1) =
      (chunk, some nonce, gp) :: chunk_entries chunk gp (nonce + 1) k := by
  have hcomp : ((fun i => ((chunk, some (nonce + i), gp) : Nat × Option Nat × Nat)) ∘ Nat.succ) =
      fun i => (chunk, some (nonce + 1 + i), gp) := by
    funext i
    show (chunk, some (nonce + Nat.succ i), gp) = (chunk, some (nonce + 1 + i), gp)
    have hi : nonce + Nat.succ i = nonce + 1 + i := by omega
    rw [hi]
  unfold chunk_entries
  rw [List.range_succ_eq_map, List.map_cons, List.map_map, hcomp, Nat.add_zero]

/-- Inversion for the full-chunk loop of `construct_bundle`: a successful run
appends `count` transactions of `chunk` bytes at consecutive nonces, advances
the nonce by `count` and the data counter by `count * chunk`. -/
theorem push_loop_ok {m : Middleware} {cid addr rcv chunk gp : Nat} :
    ∀ {count nonce used : Nat} {bundle : BundleRequest} {r : RngState}
      {out : BundleRequest × Nat × Nat × RngState},
      push_loop m cid addr rcv chunk gp count nonce bundle used r = .ok out →
      out.1.txs.map tx_obs = bundle.txs.map tx_obs ++ chunk_entries chunk gp nonce count ∧
      out.2.1 = nonce + count ∧ out.2.2.1 = used + count * chunk := by
  intro count
  induction count with
  | zero =>
    intro nonce used bundle r out h
    unfold push_loop at h
    cases h
    simp [chunk_entries_zero]
  | succ k ih =>
    intro nonce used bundle r out h
    unfold push_loop at h
    obtain ⟨srx, hsrx, h⟩ := except_bind_ok h
    obtain ⟨n2, hn2, h⟩ := except_bind_ok h
    obtain ⟨hobs, _⟩ := get_signed_tx_ok hsrx
    obtain ⟨_, hn2v⟩ := u256_add_ok hn2
    subst hn2v
    obtain ⟨h1, h2, h3⟩ := ih h
    refine ⟨?_, by omega, by rw [h3, Nat.succ_mul]; ring⟩
    rw [h1, chunk_entries_succ]
    simp [BundleRequest.push_transaction, hobs]

/-- Totality of the full-chunk loop over an always-succeeding client, as long
as the nonce increments stay within `U256`. -/
theorem push_loop_total {m : Middleware}
    (hest : ∀ tx, ∃ g, m.estimate_gas tx = .ok g)
    (hsig : ∀ tx, ∃ s, m.sign_transaction tx = .ok s)
    (cid addr rcv chunk gp : Nat) :
    ∀ (count : Nat) (nonce : Nat), nonce + count ≤ U256_MAX →
      ∀ (bundle : BundleRequest) (used : Nat) (r : RngState),
      ∃ out, push_loop m cid addr rcv chunk gp count nonce bundle used r = .ok out := by
  intro count
  induction count with
  | zero =>
    intro nonce _ bundle used r
    exact ⟨_, rfl⟩
  | succ k ih =>
    intro nonce hn bundle used r
    obtain ⟨srx, hsrx⟩ := get_signed_tx_total hest hsig cid addr rcv chunk gp nonce r
    have hadd : u256_add nonce 1 = .ok (nonce + 1) := u256_add_eq_ok (by omega)
    obtain ⟨out, hout⟩ := ih (nonce + 1) (by omega) (bundle.push_transaction srx.1)
      (used + chunk) srx.2
    refine ⟨out, ?_⟩
    unfold push_loop
    rw [hsrx, ok_bind, hadd, ok_bind]
    exact hout

set_option maxRecDepth 8000

/-- Inversion for `construct_bundle`: any successfully produced bundle
consists, observably, of `full_chunks` transactions of `chunk_bytes` bytes
followed by one remainder transaction of `code_remainder` bytes, at
consecutive nonces from the input nonce, all priced `tip + gas price`. -/
theorem construct_bundle_ok {m : Middleware} {cid addr rcv glim fill nonce csz tip : Nat}
    {r : RngState} {out : BundleRequest × RngState}
    (h : construct_bundle m cid addr rcv glim fill nonce csz tip r = .ok out) :
    out.1.txs.map tx_obs =
      canonical_obs (chunk_bytes csz) (tip + m.gas_price) nonce
        (full_chunks fill csz) (code_remainder fill csz) := by
  unfold construct_bundle at h
  obtain ⟨ck, hck, h⟩ := except_bind_ok h
  obtain ⟨chunk, hchunk, h⟩ := except_bind_ok h
  obtain ⟨gl, hgl, h⟩ := except_bind_ok h
  obtain ⟨tpb, htpb, h⟩ := except_bind_ok h
  obtain ⟨gp, hgp, h⟩ := except_bind_ok h
  obtain ⟨lp, hlp, h⟩ := except_bind_ok h
  obtain ⟨rem1, hrem1, h⟩ := except_bind_ok h
  obtain ⟨rem, hrem, h⟩ := except_bind_ok h
  obtain ⟨last, hlast, h⟩ := except_bind_ok h
  cases h
  obtain ⟨-, hckv⟩ := usize_mul_ok hck
  subst hckv
  obtain ⟨-, hchunkv⟩ := usize_sub_ok hchunk
  subst hchunkv
  obtain ⟨-, htpbv⟩ := usize_div_ok htpb
  subst htpbv
  obtain ⟨-, hgpv⟩ := u256_add_ok hgp
  subst hgpv
  obtain ⟨hmap, hn, hu⟩ := push_loop_ok hlp
  obtain ⟨-, hrem1v⟩ := usize_sub_ok hrem1
  subst hrem1v
  obtain ⟨-, hremv⟩ := usize_sub_ok hrem
  subst hremv
  obtain ⟨hlobs, -⟩ := get_signed_tx_ok hlast
  show (lp.1.push_transaction last.1).txs.map tx_obs = _
  rw [BundleRequest.push_transaction]
  rw [List.map_append, hmap, List.map_singleton, hlobs, hn, hu]
  simp only [canonical_obs, chunk_bytes, full_chunks, total_data_size, code_remainder,
    BundleRequest.new, List.map_nil, List.nil_append]

/-- Totality of `construct_bundle` over an always-succeeding client, under
the arithmetic side conditions that rule out every checked-overflow panic:
the chunk computation fits `usize`, the gas/tip sums fit `U256`, the nonce
range fits `U256`, and the two remainder subtractions do not underflow. -/
theorem construct_bundle_total {m : Middleware}
    (hest : ∀ tx, ∃ g, m.estimate_gas tx = .ok g)
    (hsig : ∀ tx, ∃ s, m.sign_transaction tx = .ok s)
    (cid addr rcv glim fill nonce csz tip : Nat) (r : RngState)
    (hmul : csz * KB ≤ USIZE_MAX)
    (hsub : TRIM_BYTES ≤ csz * KB)
    (hglim : glim * fill ≤ U256_MAX)
    (hgp : tip + m.gas_price ≤ U256_MAX)
    (hnonce : nonce + full_chunks fill csz ≤ U256_MAX)
    (hrem : TRIM_BYTES + (TRIM_BYTES + full_chunks fill csz * chunk_bytes csz) ≤
      total_data_size fill) :
    ∃ out, construct_bundle m cid addr rcv glim fill nonce csz tip r = .ok out := by
  have hchunk0 : chunk_bytes csz ≠ 0 := by
    have h1 : 1 ≤ csz := by
      by_contra hc
      have : csz = 0 := by omega
      subst this
      simp [KB, TRIM_BYTES] at hsub
    have h2 : KB ≤ csz * KB := Nat.le_mul_of_pos_left KB h1
    rw [chunk_bytes]
    have : TRIM_BYTES < KB := by rw [TRIM_BYTES, KB]; omega
    omega
  obtain ⟨lp, hlp⟩ := push_loop_total hest hsig cid addr rcv (chunk_bytes csz)
    (tip + m.gas_price) (full_chunks fill csz) nonce hnonce BundleRequest.new TRIM_BYTES r
  obtain ⟨hmap, hn, hu⟩ := push_loop_ok hlp
  obtain ⟨last, hlast⟩ := get_signed_tx_total hest hsig cid addr rcv
    (total_data_size fill - lp.2.2.1 - TRIM_BYTES) (tip + m.gas_price) lp.2.1 lp.2.2.2
  have hfc : full_chunks fill csz * chunk_bytes csz ≤ total_data_size fill - TRIM_BYTES := by
    generalize full_chunks fill csz * chunk_bytes csz = fc at hrem ⊢
    omega
  have hrem1 : usize_sub (total_data_size fill) lp.2.2.1 =
      .ok (total_data_size fill - lp.2.2.1) := by
    apply usize_sub_eq_ok
    rw [hu]
    generalize full_chunks fill csz * chunk_bytes csz = fc at hrem ⊢
    omega
  have hrem2 : usize_sub (total_data_size fill - lp.2.2.1) TRIM_BYTES =
      .ok (total_data_size fill - lp.2.2.1 - TRIM_BYTES) := by
    apply usize_sub_eq_ok
    rw [hu]
    generalize full_chunks fill csz * chunk_bytes csz = fc at hrem ⊢
    omega
  have hdiv : usize_div (fill * 2 * 1024 * KB / 100) (csz * KB - TRIM_BYTES) =
      .ok (fill * 2 * 1024 * KB / 100 / (csz * KB - TRIM_BYTES)) := usize_div_eq_ok hchunk0
  have hlp2 : push_loop m cid addr rcv (csz * KB - TRIM_BYTES) (tip + m.gas_price)
      (fill * 2 * 1024 * KB / 100 / (csz * KB - TRIM_BYTES)) nonce BundleRequest.new
      TRIM_BYTES r = .ok lp := hlp
  have hrem1b : usize_sub (fill * 2 * 1024 * KB / 100) lp.2.2.1 =
      .ok (fill * 2 * 1024 * KB / 100 - lp.2.2.1) := hrem1
  have hrem2b : usize_sub (fill * 2 * 1024 * KB / 100 - lp.2.2.1) TRIM_BYTES =
      .ok (fill * 2 * 1024 * KB / 100 - lp.2.2.1 - TRIM_BYTES) := hrem2
  have hlastb : get_signed_tx m cid addr rcv
      (fill * 2 * 1024 * KB / 100 - lp.2.2.1 - TRIM_BYTES) (tip + m.gas_price)
      lp.2.1 lp.2.2.2 = .ok last := hlast
  refine ⟨(lp.1.push_transaction last.1, last.2), ?_⟩
  simp only [construct_bundle, usize_mul_eq_ok hmul, ok_bind, usize_sub_eq_ok hsub,
    u256_mul_eq_ok hglim, hdiv, u256_add_eq_ok hgp, hlp2, hrem1b, hrem2b, hlastb]

/-- Inversion for the build loop of `submit_txns`: a successful run appends
`k` transactions of the requested calldata size at consecutive nonces
starting at `nonce + i`, all at the fetched gas price. -/
theorem build_txns_loop_ok {m : Middleware} {cid addr rcv size gp nonce : Nat} :
    ∀ {k i : Nat} {acc : List SignedTx} {r : RngState} {out : List SignedTx × RngState},
      build_txns_loop m cid addr rcv size gp nonce i k acc r = .ok out →
      out.1.map tx_obs = acc.map tx_obs ++ chunk_entries size gp (nonce + i) k := by
  intro k
  induction k with
  | zero =>
    intro i acc r out h
    unfold build_txns_loop at h
    cases h
    simp [chunk_entries_zero]
  | succ n ih =>
    intro i acc r out h
    unfold build_txns_loop at h
    obtain ⟨nn, hnn, h⟩ := except_bind_ok h
    obtain ⟨-, hnnv⟩ := u256_add_ok hnn
    subst hnnv
    obtain ⟨srx, hsrx, h⟩ := except_bind_ok h
    obtain ⟨hobs, -⟩ := get_signed_tx_ok hsrx
    have h1 := ih h
    rw [h1, chunk_entries_succ]
    have hsh : nonce + i + 1 = nonce + (i + 1) := by omega
    rw [hsh]
    simp [hobs]

/-- Totality of the build loop over an always-succeeding client, as long as
the nonce additions stay within `U256`. -/
theorem build_txns_loop_total {m : Middleware}
    (hest : ∀ tx, ∃ g, m.estimate_gas tx = .ok g)
    (hsig : ∀ tx, ∃ s, m.sign_transaction tx = .ok s)
    (cid addr rcv size gp nonce : Nat) :
    ∀ (k i : Nat), nonce + i + k ≤ U256_MAX →
      ∀ (acc : List SignedTx) (r : RngState),
      ∃ out, build_txns_loop m cid addr rcv size gp nonce i k acc r = .ok out := by
  intro k
  induction k with
  | zero =>
    intro i _ acc r
    exact ⟨_, rfl⟩
  | succ n ih =>
    intro i hb acc r
    have hadd : u256_add nonce i = .ok (nonce + i) := u256_add_eq_ok (by omega)
    obtain ⟨srx, hsrx⟩ := get_signed_tx_total hest hsig cid addr rcv size gp (nonce + i) r
    obtain ⟨out, hout⟩ := ih (i + 1) (by omega) (acc ++ [srx.1]) srx.2
    refine ⟨out, ?_⟩
    unfold build_txns_loop
    rw [hadd, ok_bind, hsrx, ok_bind]
    exact hout

/-- `try_join_all` succeeds when every element's future succeeds. -/
theorem try_join_all_total {α β : Type} {f : α → Except RtError β}
    (hf : ∀ x, ∃ y, f x = .ok y) :
    ∀ xs : List α, ∃ ys, try_join_all f xs = .ok ys := by
  intro xs
  induction xs with
  | nil => exact ⟨[], rfl⟩
  | cons x xs ih =>
    obtain ⟨y, hy⟩ := hf x
    obtain ⟨ys, hys⟩ := ih
    refine ⟨y :: ys, ?_⟩
    unfold try_join_all
    rw [hy, ok_bind, hys, ok_bind]

/-- Inversion for `submit_txns`: a successful run built exactly
`mempool_txs - 1` transactions (the loop bound is `0..mempool_txs - 1`),
of the converted calldata size, at consecutive nonces from the input nonce,
all at the gas price fetched once from the client — no tip added. -/
theorem submit_txns_ok {m : Middleware} {cid addr rcv nonce csz N : Nat} {r : RngState}
    {out : MempoolRun}
    (h : submit_txns m cid addr rcv nonce csz N r = .ok out) :
    out.built.map tx_obs =
      chunk_entries (calldata_kb_to_bytes csz) m.gas_price nonce (N - 1) := by
  unfold submit_txns at h
  obtain ⟨bound, hbound, h⟩ := except_bind_ok h
  obtain ⟨bl, hbl, h⟩ := except_bind_ok h
  obtain ⟨pend, hpend, h⟩ := except_bind_ok h
  obtain ⟨rcpts, hrcpts, h⟩ := except_bind_ok h
  cases h
  obtain ⟨-, hboundv⟩ := usize_sub_ok hbound
  subst hboundv
  have h1 := build_txns_loop_ok hbl
  rw [Nat.add_zero] at h1
  simpa using h1

/-- Totality of `submit_txns` over an always-succeeding client with at least
one requested transaction and an in-range nonce window. -/
theorem submit_txns_total {m : Middleware}
    (hest : ∀ tx, ∃ g, m.estimate_gas tx = .ok g)
    (hsig : ∀ tx, ∃ s, m.sign_transaction tx = .ok s)
    (hsend : ∀ t, ∃ v, m.send_raw_transaction t = .ok v)
    (hrcpt : ∀ hdl, ∃ o, m.await_receipt hdl = .ok o)
    (cid addr rcv nonce csz N : Nat) (r : RngState)
    (hN : 1 ≤ N) (hnonce : nonce + (N - 1) ≤ U256_MAX) :
    ∃ out, submit_txns m cid addr rcv nonce csz N r = .ok out := by
  have hbound : usize_sub N 1 = .ok (N - 1) := usize_sub_eq_ok hN
  obtain ⟨bl, hbl⟩ := build_txns_loop_total hest hsig cid addr rcv
    (calldata_kb_to_bytes csz) m.gas_price nonce (N - 1) 0 (by omega) [] r
  obtain ⟨pend, hpend⟩ := try_join_all_total hsend bl.1
  obtain ⟨rcpts, hrcpts⟩ := try_join_all_total hrcpt pend
  refine ⟨⟨bl.1,
    rcpts.filterMap fun rc =>
      match rc.1 with
      | some bn => some (bn, rc.2.1, rc.2.2)
      | none => none,
    (rcpts.filterMap fun rc =>
      match rc.1 with
      | some bn => some (bn, rc.2.1, rc.2.2)
      | none => none).length⟩, ?_⟩
  simp only [submit_txns, hbound, ok_bind, hbl, hpend, hrcpts]

theorem mem_chunk_entries {chunk gp nonce count : Nat} {x : Nat × Option Nat × Nat}
    (hx : x ∈ chunk_entries chunk gp nonce count) : x.1 = chunk ∧ x.2.2 = gp := by
  unfold chunk_entries at hx
  obtain ⟨i, -, hi⟩ := List.mem_map.mp hx
  rw [← hi]
  exact ⟨rfl, rfl⟩

theorem mem_canonical_obs_gas {chunk gp nonce count rem : Nat} {x : Nat × Option Nat × Nat}
    (hx : x ∈ canonical_obs chunk gp nonce count rem) : x.2.2 = gp := by
  unfold canonical_obs at hx
  rcases List.mem_append.mp hx with hl | hr
  · exact (mem_chunk_entries hl).2
  · rw [List.mem_singleton.mp hr]

/-! ### The claims -/

/-- C1 (corrected), counterexample: at `fill_pct = 18`, `chunk_size_kb = 1`
(both valid inputs: `chunk_bytes = 724 > 0`), the spec's remainder formula
`max(0, total − full_chunks*chunk_bytes − OVERHEAD)` clamps to `0`, but the
code does not produce a zero-size remainder entry — its unchecked `usize`
subtraction underflows and the planner panics, producing no plan at all. -/
theorem C1_counterexample :
    construct_bundle mW 5 10 11 30000000 18 0 1 5 rngZero = .error .panic ∧
      spec_remainder 18 1 = 0 := by
  exact ⟨rfl, by decide⟩

/-- C1 (corrected), amended: whenever the Packing Planner does produce a
plan, the remainder entry's size is
`total_bytes − (OVERHEAD + full_chunks*chunk_bytes) − OVERHEAD` — the
overhead is subtracted twice, once as the initial value of the
`current_data_used` counter and once at the remainder computation — and
there is no clamping: inputs whose remainder would be negative make the
subtraction underflow (a panic) instead of yielding a zero-size entry. -/
theorem C1_remainder {m : Middleware} {cid addr rcv glim fill nonce csz tip : Nat}
    {r : RngState} {out : BundleRequest × RngState}
    (h : construct_bundle m cid addr rcv glim fill nonce csz tip r = .ok out) :
    (out.1.txs.map fun t => t.tx.data.length).getLast? =
      some (code_remainder fill csz) := by
  have hs := congrArg (List.map fun x : Nat × Option Nat × Nat => x.1) (construct_bundle_ok h)
  rw [List.map_map] at hs
  have hs2 : (out.1.txs.map fun t => t.tx.data.length) =
      (canonical_obs (chunk_bytes csz) (tip + m.gas_price) nonce
        (full_chunks fill csz) (code_remainder fill csz)).map
        (fun x : Nat × Option Nat × Nat => x.1) := hs
  rw [hs2]
  simp only [canonical_obs, List.map_append, List.map_singleton]
  rw [List.getLast?_concat]

/-- Witness for C1's amended theorem: at `fill_pct = 1`, `chunk_size_kb = 128`
the planner succeeds and its single remainder entry has
`20971 − (300 + 0) − 300 = 20371` bytes — not the `20671` bytes of the
spec's formula. -/
theorem C1_remainder_witness :
    ∃ out, construct_bundle mW 5 10 11 30000000 1 0 128 5 rngZero = .ok out ∧
      (out.1.txs.map fun t => t.tx.data.length).getLast? = some (code_remainder 1 128) ∧
      code_remainder 1 128 = 20371 := by
  obtain ⟨out, hout⟩ := construct_bundle_total (m := mW)
    (fun tx => ⟨21000, rfl⟩) (fun tx => ⟨1, rfl⟩)
    5 10 11 30000000 1 0 128 5 rngZero
    (by decide) (by decide) (by decide) (by decide) (by decide) (by decide)
  exact ⟨out, hout, C1_remainder hout, by decide⟩

/-- C2 (code_bug): requesting `mempool_txs = 5` transactions builds and
broadcasts only 4 (the loop bound is `0..mempool_txs - 1`), at nonces
`7, 8, 9, 10` for starting nonce 7 — the code's own log then claims
"generated 5 transactions".  The nonces are contiguous as specified, but
the count is one short of the contract. -/
theorem C2_offbyone :
    Except.map (fun o : MempoolRun => (o.built.length, o.built.map fun t => t.tx.nonce))
      (submit_txns mW 5 10 11 7 1 5 rngZero) =
      .ok (4, [some 7, some 8, some 9, some 10]) ∧ (4 : Nat) ≠ 5 := by
  exact ⟨rfl, by decide⟩

/-- C3 (corrected), counterexample: with `mempool_txs = 5` and the single
broadcast at nonce 8 failing, `submit_txns` does not log the sibling
receipts and complete — `try_join_all` propagates the failure and the `?`
aborts the whole run with the provider error. -/
theorem C3_counterexample :
    submit_txns mFail8 5 10 11 7 1 5 rngZero = .error .provider ∧
      ¬ ∃ out, submit_txns mFail8 5 10 11 7 1 5 rngZero = .ok out := by
  refine ⟨rfl, ?_⟩
  rintro ⟨out, hout⟩
  rw [show submit_txns mFail8 5 10 11 7 1 5 rngZero = .error .provider from rfl] at hout
  cases hout

/-- C3 (corrected), amended: independence holds only at the receipt stage —
a receipt that resolves to `None` is skipped while its siblings are logged
(4 built, 3 logged when one receipt is missing) — whereas a failing
broadcast aborts the entire run with an error and nothing is logged. -/
theorem C3_aborts :
    Except.map (fun o : MempoolRun => (o.built.length, o.landed, o.logged.length))
      (submit_txns mDrop8 5 10 11 7 1 5 rngZero) = .ok (4, 3, 3) ∧
    submit_txns mFail8 5 10 11 6 1 5 rngZero = .error .provider := by
  exact ⟨rfl, rfl⟩

/-- C4 (corrected), counterexample: in the spec's landing-loop scenario
(budget of 1 landed block, 3 blocks, inclusion only on block 2) the loop
produces 3 attempt records, not 2 — the loop condition is
`landed <= blocks_to_land`, so after the first success (`landed = 1`,
budget 1) it still submits against block 3 and records a third attempt. -/
theorem C4_counterexample :
    Except.map List.length
      (submit_bundles mW 5 10 11 0 30000000 1 128 1 5 scenarioEvents rngZero) = .ok 3 ∧
      (3 : Nat) ≠ 2 := by
  exact ⟨rfl, by decide⟩

/-- C4 (corrected), amended: the loop keeps submitting while
`landed ≤ blocks_to_land` and exits only once the landed counter strictly
exceeds the budget (or the stream ends): the scenario yields the records
(failure at block 1, success at block 2, failure at block 3), and a loop
entered with its counter already above the budget submits nothing. -/
theorem C4_budget :
    Except.map (List.map fun rec => (rec.success, rec.block_no))
      (submit_bundles mW 5 10 11 0 30000000 1 128 1 5 scenarioEvents rngZero) =
      .ok [(false, 1), (true, 2), (false, 3)] ∧
    submit_bundles_loop mW 5 10 11 1 128 1 5 scenarioEvents 2 BundleRequest.new 0
      rngZero [] = .ok [] := by
  exact ⟨rfl, rfl⟩

/-- C5 (corrected), amended: the code never validates the chunk size — when
`chunk_size_kb * 1024 − OVERHEAD ≤ 0` (that is, `chunk_size_kb = 0`, the
only `usize` value making `chunk_size*KB < TRIM_BYTES`), the subtraction
`chunk_size * KB - TRIM_BYTES` underflows and the planner panics instead of
returning a `ConfigError`, and no plan is produced. -/
theorem C5_no_config (m : Middleware) (cid addr rcv glim fill nonce csz tip : Nat)
    (r : RngState) (h : csz * KB < TRIM_BYTES) :
    construct_bundle m cid addr rcv glim fill nonce csz tip r = .error .panic := by
  have h1 : csz * KB ≤ USIZE_MAX := by
    have h2 : TRIM_BYTES ≤ USIZE_MAX := by decide
    omega
  have h3 : usize_sub (csz * KB) TRIM_BYTES = .error .panic := by
    unfold usize_sub
    exact if_neg (by omega)
  simp only [construct_bundle, usize_mul_eq_ok h1, ok_bind, h3, error_bind]

/-- Witness for C5's amended theorem: `chunk_size_kb = 0` satisfies the
underflow condition, and the planner run panics. -/
theorem C5_no_config_witness :
    0 * KB < TRIM_BYTES ∧
      construct_bundle mW 5 10 11 30000000 80 0 0 5 rngZero = .error .panic :=
  ⟨by decide, C5_no_config mW 5 10 11 30000000 80 0 0 5 rngZero (by decide)⟩

/-- C5 (corrected), counterexample: at `chunk_size_kb = 0` the planner fails
with a panic, which is not the spec's `ConfigError`. -/
theorem C5_counterexample :
    construct_bundle mW 1 2 3 30000000 50 0 0 7 rngOne = .error .panic ∧
      RtError.panic ≠ RtError.config := by
  exact ⟨rfl, by decide⟩

/-- C6 (confirmed): whenever the Packing Planner produces a plan for a valid
fill percentage, the plan has exactly `full_chunks + 1` entries —
`full_chunks` entries of `chunk_bytes` bytes followed by exactly one
remainder entry (present even when the remainder is zero), and the nonces in
emission order are the contiguous strictly increasing range
`nonce, nonce+1, …, nonce+full_chunks`. -/
theorem C6_plan_shape {m : Middleware} {cid addr rcv glim fill nonce csz tip : Nat}
    {r : RngState} {out : BundleRequest × RngState}
    (hlo : 1 ≤ fill) (hhi : fill ≤ 100)
    (h : construct_bundle m cid addr rcv glim fill nonce csz tip r = .ok out) :
    out.1.txs.length = full_chunks fill csz + 1 ∧
    (out.1.txs.map fun t => t.tx.data.length) =
      List.replicate (full_chunks fill csz) (chunk_bytes csz) ++ [code_remainder fill csz] ∧
    (out.1.txs.map fun t => t.tx.nonce) =
      (List.range (full_chunks fill csz + 1)).map fun i => some (nonce + i) := by
  have hobs := construct_bundle_ok h
  refine ⟨?_, ?_, ?_⟩
  · have hl := congrArg List.length hobs
    simp only [List.length_map, canonical_obs, chunk_entries, List.length_append,
      List.length_range, List.length_singleton] at hl
    exact hl
  · have hs := congrArg (List.map fun x : Nat × Option Nat × Nat => x.1) hobs
    rw [List.map_map] at hs
    have hs2 : (out.1.txs.map fun t => t.tx.data.length) =
        (canonical_obs (chunk_bytes csz) (tip + m.gas_price) nonce
          (full_chunks fill csz) (code_remainder fill csz)).map
          (fun x : Nat × Option Nat × Nat => x.1) := hs
    rw [hs2]
    simp only [canonical_obs, chunk_entries, List.map_append, List.map_map,
      List.map_singleton]
    congr 1
    rw [show ((fun x : Nat × Option Nat × Nat => x.1) ∘ fun i : Nat =>
      (chunk_bytes csz, some (nonce + i), tip + m.gas_price)) =
      fun _ : Nat => chunk_bytes csz from rfl]
    rw [List.map_const', List.length_range]
  · have hn := congrArg (List.map fun x : Nat × Option Nat × Nat => x.2.1) hobs
    rw [List.map_map] at hn
    have hn2 : (out.1.txs.map fun t => t.tx.nonce) =
        (canonical_obs (chunk_bytes csz) (tip + m.gas_price) nonce
          (full_chunks fill csz) (code_remainder fill csz)).map
          (fun x : Nat × Option Nat × Nat => x.2.1) := hn
    rw [hn2]
    simp only [canonical_obs, chunk_entries, List.map_append, List.map_map,
      List.map_singleton]
    rw [List.range_succ, List.map_append, List.map_singleton]
    rfl

/-- Witness for C6: at `fill_pct = 1`, `chunk_size_kb = 1` the planner
produces 28 full 724-byte entries plus one remainder entry, with nonces
`0, 1, …, 28`. -/
theorem C6_plan_shape_witness :
    ∃ out, construct_bundle mW 5 10 11 30000000 1 0 1 5 rngZero = .ok out ∧
      (out.1.txs.length = full_chunks 1 1 + 1 ∧
      (out.1.txs.map fun t => t.tx.data.length) =
        List.replicate (full_chunks 1 1) (chunk_bytes 1) ++ [code_remainder 1 1] ∧
      (out.1.txs.map fun t => t.tx.nonce) =
        (List.range (full_chunks 1 1 + 1)).map fun i => some (0 + i)) := by
  obtain ⟨out, hout⟩ := construct_bundle_total (m := mW)
    (fun tx => ⟨21000, rfl⟩) (fun tx => ⟨1, rfl⟩)
    5 10 11 30000000 1 0 1 5 rngZero
    (by decide) (by decide) (by decide) (by decide) (by decide) (by decide)
  exact ⟨out, hout, C6_plan_shape (by decide) (by decide) hout⟩

/-- C7 (confirmed): whenever the planner produces a plan, the number of
full-chunk entries equals `total_data_size / chunk_bytes` (integer
division) with `total_data_size = fill_pct * (2*1024*1024) / 100`, and for
the literals `fill_pct = 100`, `chunk_size_kb = 128` that division yields
exactly 16. -/
theorem C7_arithmetic {m : Middleware} {cid addr rcv glim fill nonce csz tip : Nat}
    {r : RngState} {out : BundleRequest × RngState}
    (h : construct_bundle m cid addr rcv glim fill nonce csz tip r = .ok out) :
    out.1.txs.length = total_data_size fill / chunk_bytes csz + 1 ∧
    total_data_size fill = fill * (2 * 1024 * 1024) / 100 ∧
    full_chunks fill csz = total_data_size fill / chunk_bytes csz ∧
    full_chunks 100 128 = 16 := by
  refine ⟨?_, ?_, rfl, by decide⟩
  · have hl := congrArg List.length (construct_bundle_ok h)
    simp only [List.length_map, canonical_obs, chunk_entries, List.length_append,
      List.length_range, List.length_singleton] at hl
    exact hl
  · have harg : fill * 2 * 1024 * KB = fill * (2 * 1024 * 1024) := by
      rw [KB]
      ring
    rw [total_data_size, harg]

/-- Witness for C7: at `fill_pct = 100`, `chunk_size_kb = 128` the planner
succeeds with `16 + 1 = 17` entries. -/
theorem C7_arithmetic_witness :
    ∃ out, construct_bundle mW 5 10 11 30000000 100 0 128 5 rngOne = .ok out ∧
      (out.1.txs.length = total_data_size 100 / chunk_bytes 128 + 1 ∧
      total_data_size 100 = 100 * (2 * 1024 * 1024) / 100 ∧
      full_chunks 100 128 = total_data_size 100 / chunk_bytes 128 ∧
      full_chunks 100 128 = 16) := by
  obtain ⟨out, hout⟩ := construct_bundle_total (m := mW)
    (fun tx => ⟨21000, rfl⟩) (fun tx => ⟨1, rfl⟩)
    5 10 11 30000000 100 0 128 5 rngOne
    (by decide) (by decide) (by decide) (by decide) (by decide) (by decide)
  exact ⟨out, hout, C7_arithmetic hout⟩

/-- C8 (confirmed): the Payload Generator returns exactly `size` bytes for
every requested size, and for `size = 0` it returns the empty sequence. -/
theorem C8_generate_size (r : RngState) (size : Nat) :
    (generate_random_data r size).1.length = size ∧
      (generate_random_data r 0).1 = [] := by
  constructor
  · simp [generate_random_data]
  · simp [generate_random_data]

/-- C9 (confirmed): the packing plan — the sequence of (payload size, nonce)
pairs — is a pure function of the planner's inputs: two successful runs with
identical inputs but arbitrarily different hidden random-generator states
yield identical plans. -/
theorem C9_plan_pure {m : Middleware} {cid addr rcv glim fill nonce csz tip : Nat}
    {r1 r2 : RngState} {out1 out2 : BundleRequest × RngState}
    (h1 : construct_bundle m cid addr rcv glim fill nonce csz tip r1 = .ok out1)
    (h2 : construct_bundle m cid addr rcv glim fill nonce csz tip r2 = .ok out2) :
    plan_of out1.1 = plan_of out2.1 := by
  have q1 := congrArg (List.map fun x : Nat × Option Nat × Nat => (x.1, x.2.1))
    (construct_bundle_ok h1)
  have q2 := congrArg (List.map fun x : Nat × Option Nat × Nat => (x.1, x.2.1))
    (construct_bundle_ok h2)
  rw [List.map_map] at q1 q2
  have p1 : plan_of out1.1 =
      (canonical_obs (chunk_bytes csz) (tip + m.gas_price) nonce
        (full_chunks fill csz) (code_remainder fill csz)).map
        (fun x : Nat × Option Nat × Nat => (x.1, x.2.1)) := q1
  have p2 : plan_of out2.1 =
      (canonical_obs (chunk_bytes csz) (tip + m.gas_price) nonce
        (full_chunks fill csz) (code_remainder fill csz)).map
        (fun x : Nat × Option Nat × Nat => (x.1, x.2.1)) := q2
  rw [p1, p2]

/-- Witness for C9: two runs from different random streams (all-zeros and
all-ones) produce the same plan. -/
theorem C9_plan_pure_witness :
    ∃ out1 out2, construct_bundle mW 5 10 11 30000000 1 0 1 5 rngZero = .ok out1 ∧
      construct_bundle mW 5 10 11 30000000 1 0 1 5 rngOne = .ok out2 ∧
      plan_of out1.1 = plan_of out2.1 := by
  obtain ⟨out1, h1⟩ := construct_bundle_total (m := mW)
    (fun tx => ⟨21000, rfl⟩) (fun tx => ⟨1, rfl⟩)
    5 10 11 30000000 1 0 1 5 rngZero
    (by decide) (by decide) (by decide) (by decide) (by decide) (by decide)
  obtain ⟨out2, h2⟩ := construct_bundle_total (m := mW)
    (fun tx => ⟨21000, rfl⟩) (fun tx => ⟨1, rfl⟩)
    5 10 11 30000000 1 0 1 5 rngOne
    (by decide) (by decide) (by decide) (by decide) (by decide) (by decide)
  exact ⟨out1, out2, h1, h2, C9_plan_pure h1 h2⟩

/-- C10 (confirmed): every transaction the Mempool Fan-out Path builds and
broadcasts is priced at exactly the gas price fetched once from the chain —
the configured tip is not added — while every transaction of a constructed
bundle is priced at the fetched gas price plus the tip. -/
theorem C10_gas_price {m : Middleware} {cid addr rcv nonce csz N : Nat} {r : RngState}
    {out : MempoolRun}
    {cid2 addr2 rcv2 glim fill nonce2 csz2 tip : Nat} {r2 : RngState}
    {outb : BundleRequest × RngState}
    (h1 : submit_txns m cid addr rcv nonce csz N r = .ok out)
    (h2 : construct_bundle m cid2 addr2 rcv2 glim fill nonce2 csz2 tip r2 = .ok outb) :
    (∀ t ∈ out.built, t.tx.gas_price = m.gas_price) ∧
    (∀ t ∈ outb.1.txs, t.tx.gas_price = tip + m.gas_price) := by
  constructor
  · intro t ht
    have e := submit_txns_ok h1
    have hm : tx_obs t ∈ chunk_entries (calldata_kb_to_bytes csz) m.gas_price nonce (N - 1) := by
      rw [← e]
      exact List.mem_map_of_mem tx_obs ht
    exact (mem_chunk_entries hm).2
  · intro t ht
    have e := construct_bundle_ok h2
    have hm : tx_obs t ∈ canonical_obs (chunk_bytes csz2) (tip + m.gas_price) nonce2
        (full_chunks fill csz2) (code_remainder fill csz2) := by
      rw [← e]
      exact List.mem_map_of_mem tx_obs ht
    exact mem_canonical_obs_gas hm

/-- Witness for C10: a concrete mempool run (no tip on the fetched price 3)
and a concrete bundle run (tip 5 over price 3 on every transaction). -/
theorem C10_gas_price_witness :
    ∃ out outb, submit_txns mW 5 10 11 7 1 5 rngZero = .ok out ∧
      construct_bundle mW 5 10 11 30000000 1 3 1 5 rngOne = .ok outb ∧
      (∀ t ∈ out.built, t.tx.gas_price = mW.gas_price) ∧
      (∀ t ∈ outb.1.txs, t.tx.gas_price = 5 + mW.gas_price) := by
  obtain ⟨out, h1⟩ := submit_txns_total (m := mW)
    (fun tx => ⟨21000, rfl⟩) (fun tx => ⟨1, rfl⟩)
    (fun t => ⟨0, rfl⟩) (fun hdl => ⟨(none, 0, 0), rfl⟩)
    5 10 11 7 1 5 rngZero (by decide) (by decide)
  obtain ⟨outb, h2⟩ := construct_bundle_total (m := mW)
    (fun tx => ⟨21000, rfl⟩) (fun tx => ⟨1, rfl⟩)
    5 10 11 30000000 1 3 1 5 rngOne
    (by decide) (by decide) (by decide) (by decide) (by decide) (by decide)
  obtain ⟨w1, w2⟩ := C10_gas_price h1 h2
  exact ⟨out, outb, h1, h2, w1, w2⟩

end Stress4844
